import Mathlib

/-! ## hakaxfr: zone-transfer hostname enumeration

A shallow embedding of `hakaxfr.go`.  The program's three functions `AXFR`, `LookupNS`
and `LookupName` are translated one to one.  The DNS library the program calls
(`github.com/miekg/dns`) is not part of the program; its entry points are the fields of
`Net`, so every statement below holds for every behaviour of the resolver and of the
transfer client.

Conventions of the embedding:

* a Go `error` is `Option String` (`none` is `nil`, `some msg` carries the message);
* a Go `chan *Envelope` returned by `Transfer.In` is `Option (List Envelope)`: `none` is
  the nil channel, `some envs` a channel that delivers `envs` in order and is then
  closed.  Ranging over a nil channel blocks forever in Go, so a run of the worker ends
  in one of two ways, `Outcome.finished` or `Outcome.blocked`;
* everything the worker does that is visible from outside (a query sent to a resolver, a
  transfer attempt, a log line, a line printed on standard output) is an `Event`, and a
  run is the list of its events in program order.
-/

namespace Hakaxfr

/-- The bytes of a `net.IP` value. -/
abbrev IP := List Nat

/-- The resource records the type switch of `AXFR` distinguishes, with the fields the
program reads (`Hdr.Name` first, then the kind's own field); `other` stands for every
record kind that falls to the `default` arm. -/
inductive RR where
  | A (hdrName : String) (a : IP)
  | AAAA (hdrName : String) (aaaa : IP)
  | PTR (hdrName : String) (ptr : String)
  | NS (hdrName : String) (ns : String)
  | CNAME (hdrName : String) (target : String)
  | SRV (hdrName : String) (target : String)
  | other (hdrName : String)
  deriving DecidableEq, Repr

/-- The type `dns.Envelope`: one batch of a zone transfer. -/
structure Envelope where
  RR : List RR
  Error : Option String
  deriving DecidableEq, Repr

/-- The part of `dns.Msg` the program reads: the answer section. -/
structure Msg where
  Answer : List RR
  deriving DecidableEq, Repr

/-- Question types the program sets with `SetQuestion`. -/
inductive QType where
  | TypeA
  | TypeNS
  deriving DecidableEq, Repr

/-- The entry points of the DNS library used by the program, as parameters.
`Exchange qname qtype addr` is `dns.Exchange` on a message whose question is
`(qname, qtype)`, sent to `addr`; `In zone addr` is `Transfer.In` on an AXFR message for
`zone`, sent to `addr`, returning the channel and the error; `ipString` is
`net.IP.String`; `Fqdn` is `dns.Fqdn`. -/
structure Net where
  Fqdn : String → String
  Exchange : String → QType → String → Except String Msg
  In : String → String → Option (List Envelope) × Option String
  ipString : IP → String

/-- What a run of the worker does that can be observed. -/
inductive Event where
  | exchange (addr : String) (qname : String) (qtype : QType)
  | transfer (addr : String) (zone : String)
  | log (msg : String)
  | println (line : String)
  deriving DecidableEq, Repr

/-- How a run ends: the loop ran to its end, or the goroutine is blocked forever on a
receive from a nil channel. -/
inductive Outcome where
  | finished
  | blocked
  deriving DecidableEq, Repr

/-- A run: its events in program order, and how it ends. -/
structure Run where
  events : List Event
  outcome : Outcome
  deriving DecidableEq, Repr

/-- Sequential composition of two pieces of a run: what follows a blocked piece never
executes. -/
def Run.andThen (r k : Run) : Run :=
  match r.outcome with
  | Outcome.blocked => r
  | Outcome.finished => ⟨r.events ++ k.events, k.outcome⟩

/-- The lines printed on standard output during a run, in order. -/
def linesOf (evs : List Event) : List String :=
  evs.filterMap fun e => match e with
    | Event.println l => some l
    | _ => none

/-- The addresses of the resolver queries (`dns.Exchange`) of a run, in order. -/
def exchangesOf (evs : List Event) : List String :=
  evs.filterMap fun e => match e with
    | Event.exchange a _ _ => some a
    | _ => none

/-- The addresses of the zone-transfer attempts (`Transfer.In`) of a run, in order. -/
def transfersOf (evs : List Event) : List String :=
  evs.filterMap fun e => match e with
    | Event.transfer a _ => some a
    | _ => none

/-- Go's `strings.TrimRight s cutset`: `s` without its trailing code points that occur in
`cutset`, all of them. -/
def TrimRight (s cutset : String) : String :=
  ⟨s.data.rdropWhile fun c => cutset.data.contains c⟩

/-- The code points of a string.  Go compares strings byte by byte, and on UTF-8 the order
of the byte sequences is the lexicographic order of the code-point sequences. -/
def codePoints (s : String) : List Nat :=
  s.data.map Char.toNat

/-- Go's `a <= b` on strings: lexicographic order. -/
def stringLE (a b : String) : Prop :=
  codePoints a ≤ codePoints b

instance : DecidableRel stringLE :=
  fun a b => inferInstanceAs (Decidable (codePoints a ≤ codePoints b))

instance : IsTotal String stringLE :=
  ⟨fun a b => le_total (codePoints a) (codePoints b)⟩

instance : IsTrans String stringLE :=
  ⟨fun _ _ _ hab hbc => le_trans hab hbc⟩

/-- Go's `sort.Strings`: the strings in ascending order. -/
def sortStrings (l : List String) : List String :=
  l.insertionSort stringLE

/-- The results of `LookupNS` and of `LookupName`: the returned slice, the returned
error, and the queries sent while computing them. -/
structure Lookup where
  values : List String
  err : Option String
  requests : List Event
  deriving DecidableEq, Repr

/-- `LookupNS` (lines 98-116): one NS query to `serverAddr` on port 53; the `Ns` fields of
the NS records of the answer, in answer order. -/
def LookupNS (net : Net) (domain serverAddr : String) : Lookup :=
  let qname := net.Fqdn domain
  let addr := serverAddr ++ ":53"
  let req := [Event.exchange addr qname QType.TypeNS]
  match net.Exchange qname QType.TypeNS addr with
  | Except.error e => ⟨[], some e, req⟩
  | Except.ok m =>
    if m.Answer.length < 1 then ⟨[], some "no Answer", req⟩
    else
      let servers := m.Answer.filterMap fun a => match a with
        | RR.NS _ ns => some ns
        | _ => none
      ⟨servers, none, req⟩

/-- The loop of lines 130-135: the string form of every A record of the answer section,
in answer order; records of another kind are skipped. -/
def addresses (net : Net) (answer : List RR) : List String :=
  answer.filterMap fun r => match r with
    | RR.A _ a => some (net.ipString a)
    | _ => none

/-- `LookupName` (lines 118-142): one A query to `serverAddr` on port 53; the string forms
of the A records of the answer, sorted. -/
def LookupName (net : Net) (fqdn serverAddr : String) : Lookup :=
  let qname := net.Fqdn fqdn
  let addr := serverAddr ++ ":53"
  let req := [Event.exchange addr qname QType.TypeA]
  match net.Exchange qname QType.TypeA addr with
  | Except.error e => ⟨[], some e, req⟩
  | Except.ok m =>
    if m.Answer.length < 1 then ⟨[], some "no Answer", req⟩
    else
      let ips := addresses net m.Answer
      let err := if ips.length = 0 then some "no A record returned" else none
      ⟨sortStrings ips, err, req⟩

/-- The guard `err != nil || len(cip) == 0` of lines 70, 76 and 82. -/
def rejected (r : Lookup) : Bool :=
  r.err.isSome || r.values.length == 0

/-- The type switch of lines 61-88: the value assigned to `hostname` (`none` when the
arm runs `continue`), and the queries sent on the way. -/
def classify (net : Net) (serverAddr : String) : RR → Option String × List Event
  | RR.A hdrName _ => (some hdrName, [])
  | RR.AAAA hdrName _ => (some hdrName, [])
  | RR.PTR _ ptr => (some ptr, [])
  | RR.NS _ ns =>
    let r := LookupName net ns serverAddr
    if rejected r then (none, r.requests) else (some ns, r.requests)
  | RR.CNAME hdrName target =>
    let r := LookupName net target serverAddr
    if rejected r then (none, r.requests) else (some hdrName, r.requests)
  | RR.SRV _ target =>
    let r := LookupName net target serverAddr
    if rejected r then (none, r.requests) else (some target, r.requests)
  | RR.other _ => (none, [])

/-- The body of the loop over the records of an envelope (lines 60-91). -/
def processRR (net : Net) (serverAddr : String) (a : RR) : List Event :=
  match classify net serverAddr a with
  | (some hostname, reqs) => reqs ++ [Event.println (TrimRight hostname ".")]
  | (none, reqs) => reqs

/-- The loops of lines 58-93 over a non-nil channel that delivers `envs`. -/
def processEnvelopes (net : Net) (serverAddr : String) (envs : List Envelope) :
    List Event :=
  envs.flatMap fun ex => ex.RR.flatMap (processRR net serverAddr)

/-- The body of the loop over the name servers (lines 51-93). -/
def transferFrom (net : Net) (serverAddr domain s : String) : Run :=
  let zone := net.Fqdn domain
  let addr := s ++ ":53"
  let res := net.In zone addr
  let logs := match res.2 with
    | some e => [Event.log ("Error querying NS: " ++ e)]
    | none => []
  match res.1 with
  | none => ⟨Event.transfer addr zone :: logs, Outcome.blocked⟩
  | some envs =>
    ⟨Event.transfer addr zone :: logs ++ processEnvelopes net serverAddr envs,
      Outcome.finished⟩

/-- The loop over the name servers (lines 50-94). -/
def transferAll (net : Net) (serverAddr domain : String) : List String → Run
  | [] => ⟨[], Outcome.finished⟩
  | s :: rest =>
    (transferFrom net serverAddr domain s).andThen (transferAll net serverAddr domain rest)

/-- The body of the loop over the work items (lines 45-94). -/
def processDomain (net : Net) (serverAddr domain : String) : Run :=
  let r := LookupNS net domain serverAddr
  let logs := match r.err with
    | some e => [Event.log ("Error lookup up NS record: " ++ e)]
    | none => []
  Run.andThen ⟨r.requests ++ logs, Outcome.finished⟩
    (transferAll net serverAddr domain r.values)

/-- `AXFR` (lines 41-96), on the domains this worker receives from the work channel, in
the order it receives them. -/
def AXFR (net : Net) (serverAddr : String) : List String → Run
  | [] => ⟨[], Outcome.finished⟩
  | domain :: work =>
    (processDomain net serverAddr domain).andThen (AXFR net serverAddr work)

/-! ## Vocabulary of the statements -/

/-- The name ends in a dot. -/
def endsInDot (s : String) : Prop :=
  s.data.getLast? = some '.'

instance (s : String) : Decidable (endsInDot s) :=
  inferInstanceAs (Decidable (s.data.getLast? = some '.'))

/-- The confirmation of `name` succeeds: `LookupName` against the configured nameserver
returns no error and a non-empty address list. -/
def resolves (net : Net) (serverAddr name : String) : Prop :=
  (LookupName net name serverAddr).err = none ∧ (LookupName net name serverAddr).values ≠ []

instance (net : Net) (serverAddr name : String) : Decidable (resolves net serverAddr name) :=
  inferInstanceAs (Decidable (_ ∧ _))

/-- Records of address or pointer kind. -/
def isAddressOrPointer : RR → Bool
  | RR.A _ _ => true
  | RR.AAAA _ _ => true
  | RR.PTR _ _ => true
  | _ => false

/-- The records of a transfer: its envelopes concatenated in arrival order. -/
def recordsOf (envs : List Envelope) : List RR :=
  envs.flatMap fun ex => ex.RR

/-- The line the worker prints for a record, if it prints one. -/
def lineOf (net : Net) (serverAddr : String) (a : RR) : Option String :=
  (classify net serverAddr a).1.map fun hostname => TrimRight hostname "."

/-- Where a request may go: a resolver query to the configured nameserver on port 53, a
transfer attempt to one of the name servers `servers` on port 53; other events are not
requests. -/
def wellAddressed (serverAddr : String) (servers : List String) : Event → Prop
  | Event.exchange addr _ _ => addr = serverAddr ++ ":53"
  | Event.transfer addr _ => ∃ s ∈ servers, addr = s ++ ":53"
  | _ => True

/-! ## Sample resolvers

Concrete behaviours of the library, used to run the program on the scenarios of the
specification. -/

/-- A name made fully qualified: a trailing dot is added unless there is one. -/
def sampleFqdn (s : String) : String :=
  if s.data.getLast? = some '.' then s else s ++ "."

/-- Dotted decimal form of an address. -/
def sampleIPString (ip : IP) : String :=
  ".".intercalate (ip.map Nat.repr)

/-- The resolver of the sample zone `example.com`: two name servers; `real.example.com`
and `ns2.example.com` have an address, `svc.example.com` has a TXT-like answer only,
`down.test` cannot be queried, every other name has an empty answer. -/
def sampleExchange (qname : String) (qtype : QType) (_addr : String) : Except String Msg :=
  if qname = "down.test." then Except.error "read udp: i/o timeout"
  else if qtype = QType.TypeNS ∧ qname = "example.com." then
    Except.ok ⟨[RR.NS "example.com." "ns1.example.com.",
      RR.NS "example.com." "ns2.example.com."]⟩
  else if qtype = QType.TypeA ∧ qname = "real.example.com." then
    Except.ok ⟨[RR.A "real.example.com." [5, 6, 7, 8]]⟩
  else if qtype = QType.TypeA ∧ qname = "ns2.example.com." then
    Except.ok ⟨[RR.A "ns2.example.com." [9, 9, 9, 9], RR.other "ns2.example.com.",
      RR.A "ns2.example.com." [10, 0, 0, 1], RR.A "ns2.example.com." [9, 9, 9, 9]]⟩
  else if qtype = QType.TypeA ∧ qname = "svc.example.com." then
    Except.ok ⟨[RR.other "svc.example.com."]⟩
  else Except.ok ⟨[]⟩

/-- The zone both servers of the sample hand out when they answer. -/
def sampleZone : List Envelope :=
  [⟨[RR.other "example.com.", RR.NS "example.com." "ns1.example.com.",
      RR.NS "example.com." "ns2.example.com.", RR.A "host.example.com." [1, 2, 3, 4]], none⟩,
    ⟨[RR.CNAME "alias.example.com." "real.example.com.",
      RR.SRV "_sip._tcp.example.com." "svc.example.com.",
      RR.A "host.example.com." [1, 2, 3, 4],
      RR.PTR "4.3.2.1.in-addr.arpa." "host.example.com."], none⟩]

/-- Scenario 1 of the specification: the connection to `ns1` fails, so `Transfer.In`
returns the nil channel and an error; `ns2` hands out one A record. -/
def scenario1Net : Net where
  Fqdn := sampleFqdn
  Exchange := sampleExchange
  In := fun _ addr =>
    if addr = "ns1.example.com.:53" then (none, some "dial tcp: i/o timeout")
    else (some [⟨[RR.A "host.example.com." [1, 2, 3, 4]], none⟩], none)
  ipString := sampleIPString

/-- Both servers of the sample hand out `sampleZone`. -/
def openNet : Net where
  Fqdn := sampleFqdn
  Exchange := sampleExchange
  In := fun _ _ => (some sampleZone, none)
  ipString := sampleIPString

/-- A transfer as a server sends it, framed by the SOA record of the zone (a record of a
kind the worker skips): a name-server record, address records with one repeated, an
alias and a pointer. -/
def addressZone : List Envelope :=
  [⟨[RR.other "example.com.", RR.NS "example.com." "ns1.example.com.",
      RR.A "host.example.com." [1, 2, 3, 4], RR.AAAA "six.example.com." [0, 1]], none⟩,
    ⟨[RR.CNAME "alias.example.com." "real.example.com.",
      RR.PTR "4.3.2.1.in-addr.arpa." "host.example.com.",
      RR.A "host.example.com." [1, 2, 3, 4], RR.other "example.com."], none⟩]

/-- Both servers of the sample hand out `addressZone`. -/
def addressNet : Net where
  Fqdn := sampleFqdn
  Exchange := sampleExchange
  In := fun _ _ => (some addressZone, none)
  ipString := sampleIPString

/-! ## General facts about the embedding -/

theorem linesOf_append (xs ys : List Event) :
    linesOf (xs ++ ys) = linesOf xs ++ linesOf ys := by
  simp [linesOf, List.filterMap_append]

theorem exchangesOf_append (xs ys : List Event) :
    exchangesOf (xs ++ ys) = exchangesOf xs ++ exchangesOf ys := by
  simp [exchangesOf, List.filterMap_append]

theorem transfersOf_append (xs ys : List Event) :
    transfersOf (xs ++ ys) = transfersOf xs ++ transfersOf ys := by
  simp [transfersOf, List.filterMap_append]

theorem LookupName_requests (net : Net) (fqdn serverAddr : String) :
    (LookupName net fqdn serverAddr).requests =
      [Event.exchange (serverAddr ++ ":53") (net.Fqdn fqdn) QType.TypeA] := by
  unfold LookupName
  simp only
  split
  · rfl
  · split <;> rfl

theorem LookupNS_requests (net : Net) (domain serverAddr : String) :
    (LookupNS net domain serverAddr).requests =
      [Event.exchange (serverAddr ++ ":53") (net.Fqdn domain) QType.TypeNS] := by
  unfold LookupNS
  simp only
  split
  · rfl
  · split <;> rfl

theorem sortStrings_perm (l : List String) : (sortStrings l).Perm l :=
  List.perm_insertionSort stringLE l

theorem sortStrings_sorted (l : List String) : (sortStrings l).Sorted stringLE :=
  List.sorted_insertionSort stringLE l

theorem sortStrings_eq_nil (l : List String) : sortStrings l = [] ↔ l = [] := by
  constructor
  · intro h
    have hp := sortStrings_perm l
    rw [h] at hp
    exact List.Perm.eq_nil hp.symm
  · intro h
    subst h
    rfl

theorem LookupName_ok (net : Net) (fqdn serverAddr : String) (m : Msg)
    (h : net.Exchange (net.Fqdn fqdn) QType.TypeA (serverAddr ++ ":53") = Except.ok m) :
    (LookupName net fqdn serverAddr).values = sortStrings (addresses net m.Answer) ∧
      (LookupName net fqdn serverAddr).err =
        if m.Answer = [] then some "no Answer"
        else if addresses net m.Answer = [] then some "no A record returned" else none := by
  unfold LookupName
  simp only [h]
  by_cases hA : m.Answer = []
  · simp [hA, addresses, sortStrings]
  · have hlen : ¬ m.Answer.length < 1 := by
      intro hl
      exact hA (List.length_eq_zero.mp (by omega))
    simp only [hlen, if_false, hA, List.length_eq_zero]
    exact ⟨trivial, trivial⟩

theorem LookupName_error (net : Net) (fqdn serverAddr e : String)
    (h : net.Exchange (net.Fqdn fqdn) QType.TypeA (serverAddr ++ ":53") = Except.error e) :
    (LookupName net fqdn serverAddr).values = [] ∧
      (LookupName net fqdn serverAddr).err = some e := by
  unfold LookupName
  simp only [h]
  exact ⟨trivial, trivial⟩

theorem LookupName_values_ne_nil (net : Net) (fqdn serverAddr : String)
    (h : (LookupName net fqdn serverAddr).err = none) :
    (LookupName net fqdn serverAddr).values ≠ [] := by
  cases hx : net.Exchange (net.Fqdn fqdn) QType.TypeA (serverAddr ++ ":53") with
  | error e =>
    rw [(LookupName_error net fqdn serverAddr e hx).2] at h
    exact absurd h (by simp)
  | ok m =>
    obtain ⟨hv, he⟩ := LookupName_ok net fqdn serverAddr m hx
    rw [he] at h
    rw [hv]
    intro hs
    rw [sortStrings_eq_nil] at hs
    by_cases hA : m.Answer = []
    · simp [hA] at h
    · simp [hA, hs] at h

theorem isDot_iff (c : Char) : (".".data.contains c) = true ↔ c = '.' := by
  show (['.'].contains c) = true ↔ c = '.'
  simp

theorem rdropWhile_split {α : Type} (p : α → Bool) (l : List α) :
    ∃ t, l = l.rdropWhile p ++ t ∧ ∀ x ∈ t, p x = true := by
  induction l using List.reverseRecOn with
  | nil => exact ⟨[], by simp, by simp⟩
  | append_singleton l a ih =>
    obtain ⟨t, ht, hp⟩ := ih
    by_cases ha : p a = true
    · refine ⟨t ++ [a], ?_, ?_⟩
      · rw [List.rdropWhile_concat_pos _ _ _ ha, ← List.append_assoc, ← ht]
      · intro x hx
        rcases List.mem_append.mp hx with h | h
        · exact hp x h
        · rw [List.mem_singleton.mp h]; exact ha
    · exact ⟨[], by rw [List.rdropWhile_concat_neg _ _ _ ha]; simp, by simp⟩

theorem TrimRight_dots (h : String) :
    ∃ k, h = TrimRight h "." ++ ⟨List.replicate k '.'⟩ := by
  obtain ⟨t, ht, hp⟩ := rdropWhile_split (fun c => ".".data.contains c) h.data
  refine ⟨t.length, String.ext ?_⟩
  have hrep : t = List.replicate t.length '.' :=
    List.eq_replicate_iff.mpr ⟨rfl, fun x hx => (isDot_iff x).mp (hp x hx)⟩
  rw [String.data_append, ← hrep]
  exact ht

theorem TrimRight_not_endsInDot (h : String) : ¬ endsInDot (TrimRight h ".") := by
  intro hd
  unfold endsInDot TrimRight at hd
  simp only at hd
  have hne : h.data.rdropWhile (fun c => ".".data.contains c) ≠ [] := by
    intro hnil
    rw [hnil] at hd
    simp at hd
  have hlast := List.rdropWhile_last_not (fun c => ".".data.contains c) h.data hne
  rw [List.getLast?_eq_getLast _ hne] at hd
  have := Option.some.inj hd
  rw [this] at hlast
  exact hlast ((isDot_iff '.').mpr rfl)

theorem TrimRight_of_not_endsInDot (h : String) (hd : ¬ endsInDot h) :
    TrimRight h "." = h := by
  apply String.ext
  show h.data.rdropWhile (fun c => ".".data.contains c) = h.data
  rw [List.rdropWhile_eq_self_iff]
  intro hne hp
  apply hd
  unfold endsInDot
  rw [List.getLast?_eq_getLast _ hne, (isDot_iff _).mp hp]

theorem TrimRight_append_dot (s : String) (hd : ¬ endsInDot s) :
    TrimRight (s ++ ".") "." = s := by
  have h1 : TrimRight (s ++ ".") "." = TrimRight s "." := by
    apply String.ext
    show (s ++ ".").data.rdropWhile (fun c => ".".data.contains c) =
      s.data.rdropWhile (fun c => ".".data.contains c)
    rw [String.data_append]
    exact List.rdropWhile_concat_pos _ _ _ ((isDot_iff '.').mpr rfl)
  rw [h1]
  exact TrimRight_of_not_endsInDot s hd

theorem rejected_eq_false (net : Net) (serverAddr name : String) :
    rejected (LookupName net name serverAddr) = false ↔ resolves net serverAddr name := by
  unfold rejected resolves
  cases (LookupName net name serverAddr).err <;> simp

theorem classify_NS (net : Net) (serverAddr hdrName ns : String) :
    classify net serverAddr (RR.NS hdrName ns) =
      (if resolves net serverAddr ns then some ns else none,
        [Event.exchange (serverAddr ++ ":53") (net.Fqdn ns) QType.TypeA]) := by
  unfold classify
  simp only [LookupName_requests]
  by_cases h : resolves net serverAddr ns
  · simp [h, (rejected_eq_false net serverAddr ns).mpr h]
  · have hr : rejected (LookupName net ns serverAddr) = true := by
      cases hrej : rejected (LookupName net ns serverAddr)
      · exact absurd ((rejected_eq_false net serverAddr ns).mp hrej) h
      · rfl
    simp [h, hr]

theorem classify_CNAME (net : Net) (serverAddr hdrName target : String) :
    classify net serverAddr (RR.CNAME hdrName target) =
      (if resolves net serverAddr target then some hdrName else none,
        [Event.exchange (serverAddr ++ ":53") (net.Fqdn target) QType.TypeA]) := by
  unfold classify
  simp only [LookupName_requests]
  by_cases h : resolves net serverAddr target
  · simp [h, (rejected_eq_false net serverAddr target).mpr h]
  · have hr : rejected (LookupName net target serverAddr) = true := by
      cases hrej : rejected (LookupName net target serverAddr)
      · exact absurd ((rejected_eq_false net serverAddr target).mp hrej) h
      · rfl
    simp [h, hr]

theorem classify_SRV (net : Net) (serverAddr hdrName target : String) :
    classify net serverAddr (RR.SRV hdrName target) =
      (if resolves net serverAddr target then some target else none,
        [Event.exchange (serverAddr ++ ":53") (net.Fqdn target) QType.TypeA]) := by
  unfold classify
  simp only [LookupName_requests]
  by_cases h : resolves net serverAddr target
  · simp [h, (rejected_eq_false net serverAddr target).mpr h]
  · have hr : rejected (LookupName net target serverAddr) = true := by
      cases hrej : rejected (LookupName net target serverAddr)
      · exact absurd ((rejected_eq_false net serverAddr target).mp hrej) h
      · rfl
    simp [h, hr]

theorem processRR_eq (net : Net) (serverAddr : String) (a : RR) :
    processRR net serverAddr a =
      (classify net serverAddr a).2 ++
        ((lineOf net serverAddr a).map Event.println).toList := by
  unfold processRR lineOf
  rcases hc : classify net serverAddr a with ⟨_ | hostname, reqs⟩ <;> simp

theorem linesOf_processRR (net : Net) (serverAddr : String) (a : RR) :
    linesOf (processRR net serverAddr a) = (lineOf net serverAddr a).toList := by
  have hreq : linesOf (classify net serverAddr a).2 = [] := by
    cases a <;> simp [classify, linesOf, LookupName_requests, apply_ite Prod.snd]
  rw [processRR_eq, linesOf_append, hreq]
  cases lineOf net serverAddr a <;> simp [linesOf]

theorem linesOf_processRR_NS (net : Net) (serverAddr hdrName ns : String) :
    linesOf (processRR net serverAddr (RR.NS hdrName ns)) =
      if resolves net serverAddr ns then [TrimRight ns "."] else [] := by
  rw [linesOf_processRR, lineOf, classify_NS]
  by_cases h : resolves net serverAddr ns <;> simp [h]

theorem linesOf_processRR_CNAME (net : Net) (serverAddr hdrName target : String) :
    linesOf (processRR net serverAddr (RR.CNAME hdrName target)) =
      if resolves net serverAddr target then [TrimRight hdrName "."] else [] := by
  rw [linesOf_processRR, lineOf, classify_CNAME]
  by_cases h : resolves net serverAddr target <;> simp [h]

theorem linesOf_processRR_SRV (net : Net) (serverAddr hdrName target : String) :
    linesOf (processRR net serverAddr (RR.SRV hdrName target)) =
      if resolves net serverAddr target then [TrimRight target "."] else [] := by
  rw [linesOf_processRR, lineOf, classify_SRV]
  by_cases h : resolves net serverAddr target <;> simp [h]

theorem ite_singleton_iff {p : Prop} [Decidable p] (x : String) :
    ((∃ l, (if p then [x] else []) = [l]) ↔ p) ∧ ((if p then [x] else []) = [] ↔ ¬ p) := by
  by_cases h : p <;> simp [h]

theorem processEnvelopes_eq (net : Net) (serverAddr : String) (envs : List Envelope) :
    processEnvelopes net serverAddr envs =
      (recordsOf envs).flatMap (processRR net serverAddr) := by
  unfold processEnvelopes recordsOf
  rw [List.flatMap_assoc]

theorem linesOf_processEnvelopes (net : Net) (serverAddr : String) (envs : List Envelope) :
    linesOf (processEnvelopes net serverAddr envs) =
      (recordsOf envs).filterMap (lineOf net serverAddr) := by
  rw [processEnvelopes_eq]
  induction recordsOf envs with
  | nil => rfl
  | cons r rs ih =>
    rw [List.flatMap_cons, linesOf_append, ih, linesOf_processRR, List.filterMap_cons]
    cases lineOf net serverAddr r <;> simp

theorem filterMap_sublist_forall₂ {α β : Type} (f : α → Option β) (l : List α) :
    ∃ sub, sub.Sublist l ∧ List.Forall₂ (fun r y => f r = some y) sub (l.filterMap f) := by
  induction l with
  | nil => exact ⟨[], List.Sublist.slnil, by simp⟩
  | cons r rs ih =>
    obtain ⟨sub, hsub, hall⟩ := ih
    cases hf : f r with
    | none =>
      refine ⟨sub, List.Sublist.cons r hsub, ?_⟩
      rw [List.filterMap_cons, hf]
      exact hall
    | some y =>
      refine ⟨r :: sub, List.Sublist.cons₂ r hsub, ?_⟩
      rw [List.filterMap_cons, hf]
      exact List.Forall₂.cons hf hall

theorem transferFrom_ok (net : Net) (serverAddr domain s : String) (envs : List Envelope)
    (h : net.In (net.Fqdn domain) (s ++ ":53") = (some envs, none)) :
    transferFrom net serverAddr domain s =
      ⟨Event.transfer (s ++ ":53") (net.Fqdn domain) :: processEnvelopes net serverAddr envs,
        Outcome.finished⟩ := by
  unfold transferFrom
  simp [h]

theorem mem_andThen (r k : Run) (e : Event) (h : e ∈ (r.andThen k).events) :
    e ∈ r.events ∨ e ∈ k.events := by
  unfold Run.andThen at h
  cases ho : r.outcome <;> rw [ho] at h
  · exact List.mem_append.mp h
  · exact Or.inl h

theorem wellAddressed_mono (serverAddr : String) (s₁ s₂ : List String) (e : Event)
    (hsub : ∀ x ∈ s₁, x ∈ s₂) (h : wellAddressed serverAddr s₁ e) :
    wellAddressed serverAddr s₂ e := by
  cases e with
  | transfer addr zone =>
    obtain ⟨s, hs, hx⟩ := h
    exact ⟨s, hsub s hs, hx⟩
  | _ => exact h

theorem wellAddressed_processRR (net : Net) (serverAddr : String) (a : RR) (e : Event)
    (h : e ∈ processRR net serverAddr a) : wellAddressed serverAddr [] e := by
  rw [processRR_eq] at h
  rcases List.mem_append.mp h with h1 | h2
  · cases a <;>
      simp [classify, LookupName_requests, apply_ite Prod.snd] at h1 <;>
      (subst h1; rfl)
  · cases hl : lineOf net serverAddr a with
    | none => simp [hl] at h2
    | some l =>
      simp [hl] at h2
      subst h2
      trivial

theorem wellAddressed_processEnvelopes (net : Net) (serverAddr : String)
    (envs : List Envelope) (e : Event) (h : e ∈ processEnvelopes net serverAddr envs) :
    wellAddressed serverAddr [] e := by
  rw [processEnvelopes_eq] at h
  obtain ⟨r, _, hr⟩ := List.mem_flatMap.mp h
  exact wellAddressed_processRR net serverAddr r e hr

theorem wellAddressed_transferFrom (net : Net) (serverAddr domain s : String) (e : Event)
    (h : e ∈ (transferFrom net serverAddr domain s).events) :
    wellAddressed serverAddr [s] e := by
  unfold transferFrom at h
  have hlog : ∀ o : Option String, e ∈ (match o with
      | some m => [Event.log ("Error querying NS: " ++ m)]
      | none => []) → wellAddressed serverAddr [s] e := by
    intro o ho
    cases o with
    | none => simp at ho
    | some m =>
      simp at ho
      subst ho
      trivial
  cases hch : (net.In (net.Fqdn domain) (s ++ ":53")).1 with
  | none =>
    simp only [hch] at h
    rcases List.mem_cons.mp h with h1 | h2
    · subst h1
      exact ⟨s, List.mem_singleton_self s, rfl⟩
    · exact hlog _ h2
  | some envs =>
    simp only [hch] at h
    rcases List.mem_append.mp h with h1 | h3
    · rcases List.mem_cons.mp h1 with h1 | h2
      · subst h1
        exact ⟨s, List.mem_singleton_self s, rfl⟩
      · exact hlog _ h2
    · exact wellAddressed_mono serverAddr [] [s] e (by simp)
        (wellAddressed_processEnvelopes net serverAddr envs e h3)

theorem wellAddressed_transferAll (net : Net) (serverAddr domain : String)
    (servers : List String) (e : Event)
    (h : e ∈ (transferAll net serverAddr domain servers).events) :
    wellAddressed serverAddr servers e := by
  induction servers with
  | nil => simp [transferAll] at h
  | cons s rest ih =>
    unfold transferAll at h
    rcases mem_andThen _ _ e h with h1 | h2
    · exact wellAddressed_mono serverAddr [s] (s :: rest) e
        (fun x hx => by rw [List.mem_singleton.mp hx]; exact List.mem_cons_self _ _)
        (wellAddressed_transferFrom net serverAddr domain s e h1)
    · exact wellAddressed_mono serverAddr rest (s :: rest) e
        (fun x hx => List.mem_cons_of_mem _ hx) (ih h2)

theorem wellAddressed_processDomain (net : Net) (serverAddr domain : String) (e : Event)
    (h : e ∈ (processDomain net serverAddr domain).events) :
    wellAddressed serverAddr (LookupNS net domain serverAddr).values e := by
  unfold processDomain at h
  rcases mem_andThen _ _ e h with h1 | h2
  · simp only [LookupNS_requests] at h1
    rcases List.mem_append.mp h1 with h1 | h1
    · rw [List.mem_singleton.mp h1]
      rfl
    · cases herr : (LookupNS net domain serverAddr).err with
      | none => simp [herr] at h1
      | some m =>
        simp [herr] at h1
        subst h1
        trivial
  · exact wellAddressed_transferAll net serverAddr domain _ e h2

theorem length_filterMap_lineOf (net : Net) (serverAddr : String) (rs : List RR) :
    (rs.filterMap (lineOf net serverAddr)).length =
      (rs.filter isAddressOrPointer).length +
        (rs.filter fun r => !isAddressOrPointer r && (lineOf net serverAddr r).isSome).length := by
  induction rs with
  | nil => rfl
  | cons r rs ih =>
    rw [List.filterMap_cons, List.filter_cons, List.filter_cons]
    by_cases hr : isAddressOrPointer r = true
    · have hsome : ∃ l, lineOf net serverAddr r = some l := by
        cases r <;> simp [isAddressOrPointer] at hr <;> simp [lineOf, classify]
      obtain ⟨l, hl⟩ := hsome
      simp only [hl, hr, List.length_cons, ih]
      simp
      omega
    · have hr2 : isAddressOrPointer r = false := by
        cases hb : isAddressOrPointer r
        · rfl
        · exact absurd hb hr
      cases hl : lineOf net serverAddr r with
      | none => simp [hr2, ih]
      | some l =>
        simp [hr2, ih]
        omega

/-! ## The claims -/

/-- C7: when the exchange succeeds, the list `LookupName` returns is sorted in ascending
lexicographic order and is a permutation of the string forms of the A records of the
answer section (`addresses`: one entry per A record, in answer order, every other kind
skipped). -/
theorem LookupName_sorted_perm (net : Net) (fqdn serverAddr : String) (m : Msg)
    (h : net.Exchange (net.Fqdn fqdn) QType.TypeA (serverAddr ++ ":53") = Except.ok m) :
    (LookupName net fqdn serverAddr).values.Sorted stringLE ∧
      (LookupName net fqdn serverAddr).values.Perm
        (m.Answer.filterMap fun r => match r with
          | RR.A _ a => some (net.ipString a)
          | _ => none) := by
  rw [(LookupName_ok net fqdn serverAddr m h).1]
  exact ⟨sortStrings_sorted _, sortStrings_perm _⟩

/-- Witness of C7: the sample resolver answers the A query for `ns2.example.com` with
three A records (one address twice) and one record of another kind. -/
theorem LookupName_sorted_perm_witness :
    openNet.Exchange (openNet.Fqdn "ns2.example.com.") QType.TypeA ("8.8.8.8" ++ ":53") =
        Except.ok ⟨[RR.A "ns2.example.com." [9, 9, 9, 9], RR.other "ns2.example.com.",
          RR.A "ns2.example.com." [10, 0, 0, 1], RR.A "ns2.example.com." [9, 9, 9, 9]]⟩ ∧
      (LookupName openNet "ns2.example.com." "8.8.8.8").values = ["10.0.0.1", "9.9.9.9", "9.9.9.9"] ∧
      (LookupName openNet "ns2.example.com." "8.8.8.8").values.Sorted stringLE ∧
      (LookupName openNet "ns2.example.com." "8.8.8.8").values.Perm
        ["9.9.9.9", "10.0.0.1", "9.9.9.9"] :=
  ⟨by rfl, by decide,
    LookupName_sorted_perm openNet "ns2.example.com." "8.8.8.8"
      ⟨[RR.A "ns2.example.com." [9, 9, 9, 9], RR.other "ns2.example.com.",
        RR.A "ns2.example.com." [10, 0, 0, 1], RR.A "ns2.example.com." [9, 9, 9, 9]]⟩ (by rfl)⟩

/-- C10: `LookupName` returns an error in exactly three cases: the exchange fails (its
error is returned, with an empty list); the answer section is empty (`no Answer`); the
answer section is not empty and holds no A record (`no A record returned`, a message
different from `no Answer`).  When the answer holds an A record no error is returned,
and a result without error is never the empty list. -/
theorem LookupName_error_cases (net : Net) (fqdn serverAddr : String) :
    (∀ e, net.Exchange (net.Fqdn fqdn) QType.TypeA (serverAddr ++ ":53") = Except.error e →
        (LookupName net fqdn serverAddr).err = some e ∧
          (LookupName net fqdn serverAddr).values = []) ∧
      (∀ m, net.Exchange (net.Fqdn fqdn) QType.TypeA (serverAddr ++ ":53") = Except.ok m →
        (m.Answer = [] →
          (LookupName net fqdn serverAddr).err = some "no Answer" ∧
            (LookupName net fqdn serverAddr).values = []) ∧
        (m.Answer ≠ [] → (∀ hdrName a, RR.A hdrName a ∉ m.Answer) →
          (LookupName net fqdn serverAddr).err = some "no A record returned" ∧
            (LookupName net fqdn serverAddr).values = []) ∧
        ((∃ hdrName a, RR.A hdrName a ∈ m.Answer) →
          (LookupName net fqdn serverAddr).err = none)) ∧
      ((LookupName net fqdn serverAddr).err = none →
        (LookupName net fqdn serverAddr).values ≠ []) ∧
      "no Answer" ≠ "no A record returned" := by
  refine ⟨fun e he => ?_, fun m hm => ⟨fun hA => ?_, fun hA hno => ?_, fun hex => ?_⟩,
    LookupName_values_ne_nil net fqdn serverAddr, by decide⟩
  · obtain ⟨hv, her⟩ := LookupName_error net fqdn serverAddr e he
    exact ⟨her, hv⟩
  · obtain ⟨hv, her⟩ := LookupName_ok net fqdn serverAddr m hm
    rw [hv, her, hA]
    exact ⟨by simp, by simp [addresses, sortStrings]⟩
  · obtain ⟨hv, her⟩ := LookupName_ok net fqdn serverAddr m hm
    have hnil : addresses net m.Answer = [] := by
      unfold addresses
      rw [List.filterMap_eq_nil_iff]
      intro r hr
      cases r with
      | A hdrName a => exact absurd hr (hno hdrName a)
      | _ => rfl
    rw [hv, her, hnil]
    exact ⟨by simp [hA], rfl⟩
  · obtain ⟨hdrName, a, hmem⟩ := hex
    obtain ⟨_, her⟩ := LookupName_ok net fqdn serverAddr m hm
    have hA : m.Answer ≠ [] := List.ne_nil_of_mem hmem
    have hne : addresses net m.Answer ≠ [] := by
      intro hnil
      unfold addresses at hnil
      rw [List.filterMap_eq_nil_iff] at hnil
      have := hnil _ hmem
      simp at this
    rw [her]
    simp [hA, hne]

/-- Witness of C10, on the sample resolver: a failed exchange, an empty answer, an answer
without A record and an answer with A records. -/
theorem LookupName_error_cases_witness :
    (LookupName openNet "down.test" "8.8.8.8").err = some "read udp: i/o timeout" ∧
      (LookupName openNet "down.test" "8.8.8.8").values = [] ∧
      (LookupName openNet "void.example.com" "8.8.8.8").err = some "no Answer" ∧
      (LookupName openNet "svc.example.com" "8.8.8.8").err = some "no A record returned" ∧
      (LookupName openNet "real.example.com" "8.8.8.8").err = none ∧
      (LookupName openNet "real.example.com" "8.8.8.8").values ≠ [] :=
  ⟨((LookupName_error_cases openNet "down.test" "8.8.8.8").1 _ (by rfl)).1,
    ((LookupName_error_cases openNet "down.test" "8.8.8.8").1 _ (by rfl)).2,
    (((LookupName_error_cases openNet "void.example.com" "8.8.8.8").2.1 ⟨[]⟩
      (by rfl)).1 rfl).1,
    (((LookupName_error_cases openNet "svc.example.com" "8.8.8.8").2.1
      ⟨[RR.other "svc.example.com."]⟩ (by rfl)).2.1 (by decide) (by simp)).1,
    ((LookupName_error_cases openNet "real.example.com" "8.8.8.8").2.1
      ⟨[RR.A "real.example.com." [5, 6, 7, 8]]⟩ (by rfl)).2.2 ⟨_, _, List.mem_singleton_self _⟩,
    (LookupName_error_cases openNet "real.example.com" "8.8.8.8").2.2.1 (by decide)⟩

/-- C1: for every resolver behaviour and every NS, CNAME or SRV record the worker meets,
exactly one hostname line is printed for the record if `LookupName` of the relevant name
(`Ns` for NS, `Target` for CNAME and SRV) against the configured nameserver returns no
error and a non-empty list, and no line at all is printed for it otherwise. -/
theorem alias_emitted_iff_resolves (net : Net) (serverAddr hdrName name : String) :
    ((∃ l, linesOf (processRR net serverAddr (RR.NS hdrName name)) = [l]) ↔
        resolves net serverAddr name) ∧
      (linesOf (processRR net serverAddr (RR.NS hdrName name)) = [] ↔
        ¬ resolves net serverAddr name) ∧
      ((∃ l, linesOf (processRR net serverAddr (RR.CNAME hdrName name)) = [l]) ↔
        resolves net serverAddr name) ∧
      (linesOf (processRR net serverAddr (RR.CNAME hdrName name)) = [] ↔
        ¬ resolves net serverAddr name) ∧
      ((∃ l, linesOf (processRR net serverAddr (RR.SRV hdrName name)) = [l]) ↔
        resolves net serverAddr name) ∧
      (linesOf (processRR net serverAddr (RR.SRV hdrName name)) = [] ↔
        ¬ resolves net serverAddr name) := by
  rw [linesOf_processRR_NS, linesOf_processRR_CNAME, linesOf_processRR_SRV]
  exact ⟨(ite_singleton_iff _).1, (ite_singleton_iff _).2, (ite_singleton_iff _).1,
    (ite_singleton_iff _).2, (ite_singleton_iff _).1, (ite_singleton_iff _).2⟩

/-- C2, counterexample: the AAAA record whose owner name is `a\..` (the presentation form
of a name whose last label is `a.`), which is `a\.` followed by the root dot, makes the
worker print `a\`: more than the trailing root dot is removed. -/
theorem address_pointer_counterexample :
    "a\\.." = "a\\." ++ "." ∧
      processRR addressNet "8.8.8.8" (RR.AAAA "a\\.." [0, 1]) = [Event.println "a\\"] ∧
      processRR addressNet "8.8.8.8" (RR.AAAA "a\\.." [0, 1]) ≠ [Event.println "a\\."] := by
  decide

/-- C2, amended: a record of kind A, AAAA or PTR makes the worker print exactly one line
and send no query, whatever the resolver would answer: the owner name for A and AAAA, the
pointer target for PTR, without any of its trailing dots (the name is the line followed
by dots only, and the line does not end in a dot).  In a successful transfer, whatever
other records it holds, the worker runs this once per record in arrival order, so the
number of lines is the number of A/AAAA/PTR records plus the number of accepted records
of another kind; a transfer that holds only A/AAAA/PTR records prints as many lines as
it has records, duplicates included, and sends no query. -/
theorem address_pointer_emitted (net : Net) (serverAddr domain s : String)
    (envs : List Envelope)
    (h : net.In (net.Fqdn domain) (s ++ ":53") = (some envs, none)) :
    (∀ hdrName a, processRR net serverAddr (RR.A hdrName a) =
        [Event.println (TrimRight hdrName ".")]) ∧
      (∀ hdrName aaaa, processRR net serverAddr (RR.AAAA hdrName aaaa) =
        [Event.println (TrimRight hdrName ".")]) ∧
      (∀ hdrName ptr, processRR net serverAddr (RR.PTR hdrName ptr) =
        [Event.println (TrimRight ptr ".")]) ∧
      (∀ name : String, (∃ k, name = TrimRight name "." ++ ⟨List.replicate k '.'⟩) ∧
        ¬ endsInDot (TrimRight name ".")) ∧
      transferFrom net serverAddr domain s =
        ⟨Event.transfer (s ++ ":53") (net.Fqdn domain) ::
          (recordsOf envs).flatMap (processRR net serverAddr), Outcome.finished⟩ ∧
      (linesOf (transferFrom net serverAddr domain s).events).length =
        ((recordsOf envs).filter isAddressOrPointer).length +
          ((recordsOf envs).filter fun r =>
            !isAddressOrPointer r && (lineOf net serverAddr r).isSome).length ∧
      ((∀ r ∈ recordsOf envs, isAddressOrPointer r = true) →
        (linesOf (transferFrom net serverAddr domain s).events).length =
            (recordsOf envs).length ∧
          exchangesOf (transferFrom net serverAddr domain s).events = []) := by
  have hev : transferFrom net serverAddr domain s =
      ⟨Event.transfer (s ++ ":53") (net.Fqdn domain) ::
        (recordsOf envs).flatMap (processRR net serverAddr), Outcome.finished⟩ := by
    rw [transferFrom_ok net serverAddr domain s envs h, processEnvelopes_eq]
  have hlines : linesOf (transferFrom net serverAddr domain s).events =
      (recordsOf envs).filterMap (lineOf net serverAddr) := by
    rw [transferFrom_ok net serverAddr domain s envs h]
    show linesOf ([Event.transfer (s ++ ":53") (net.Fqdn domain)] ++
      processEnvelopes net serverAddr envs) = _
    rw [linesOf_append, linesOf_processEnvelopes]
    rfl
  refine ⟨fun _ _ => rfl, fun _ _ => rfl, fun _ _ => rfl,
    fun name => ⟨TrimRight_dots name, TrimRight_not_endsInDot name⟩, hev, ?_, fun hall => ?_⟩
  · rw [hlines]
    exact length_filterMap_lineOf net serverAddr (recordsOf envs)
  · refine ⟨?_, ?_⟩
    · rw [hlines, length_filterMap_lineOf, List.filter_eq_self.mpr hall]
      have hnone : (recordsOf envs).filter (fun r =>
          !isAddressOrPointer r && (lineOf net serverAddr r).isSome) = [] := by
        rw [List.filter_eq_nil_iff]
        intro r hr
        simp [hall r hr]
      rw [hnone]
      rfl
    · rw [hev]
      show exchangesOf ([Event.transfer (s ++ ":53") (net.Fqdn domain)] ++
        (recordsOf envs).flatMap (processRR net serverAddr)) = []
      rw [exchangesOf_append]
      have hno : exchangesOf ((recordsOf envs).flatMap (processRR net serverAddr)) = [] := by
        generalize recordsOf envs = rs at hall
        induction rs with
        | nil => rfl
        | cons r rs ih =>
          have hr := hall r (List.mem_cons_self _ _)
          rw [List.flatMap_cons, exchangesOf_append,
            ih fun x hx => hall x (List.mem_cons_of_mem _ hx)]
          cases r <;> simp [isAddressOrPointer] at hr <;>
            simp [processRR, classify, exchangesOf]
      rw [hno]
      rfl

/-- Witness of C2 (amended): a transfer framed by the zone's SOA record, with a rejected
NS record, an accepted CNAME record and four records of address or pointer kind, one A
record twice. -/
theorem address_pointer_emitted_witness :
    addressNet.In (addressNet.Fqdn "example.com") ("ns2.example.com." ++ ":53") =
        (some addressZone, none) ∧
      (transferFrom addressNet "8.8.8.8" "example.com" "ns2.example.com.").events =
        [Event.transfer "ns2.example.com.:53" "example.com.",
          Event.exchange "8.8.8.8:53" "ns1.example.com." QType.TypeA,
          Event.println "host.example.com",
          Event.println "six.example.com",
          Event.exchange "8.8.8.8:53" "real.example.com." QType.TypeA,
          Event.println "alias.example.com",
          Event.println "host.example.com",
          Event.println "host.example.com"] ∧
      (linesOf (transferFrom addressNet "8.8.8.8" "example.com"
        "ns2.example.com.").events).length = 4 + 1 :=
  ⟨by rfl, by decide,
    (address_pointer_emitted addressNet "8.8.8.8" "example.com" "ns2.example.com."
      addressZone (by rfl)).2.2.2.2.2.1⟩

/-- C3: when the confirmation succeeds, the worker resolves the `Target` of a CNAME record
and prints the record's owner name; it resolves and prints the `Target` of an SRV record;
it resolves and prints the `Ns` field of an NS record (each printed with trailing dots
trimmed). -/
theorem alias_emitted_name (net : Net) (serverAddr hdrName name : String)
    (h : resolves net serverAddr name) :
    processRR net serverAddr (RR.CNAME hdrName name) =
        [Event.exchange (serverAddr ++ ":53") (net.Fqdn name) QType.TypeA,
          Event.println (TrimRight hdrName ".")] ∧
      processRR net serverAddr (RR.SRV hdrName name) =
        [Event.exchange (serverAddr ++ ":53") (net.Fqdn name) QType.TypeA,
          Event.println (TrimRight name ".")] ∧
      processRR net serverAddr (RR.NS hdrName name) =
        [Event.exchange (serverAddr ++ ":53") (net.Fqdn name) QType.TypeA,
          Event.println (TrimRight name ".")] := by
  refine ⟨?_, ?_, ?_⟩
  · rw [processRR_eq, lineOf, classify_CNAME]
    simp [h]
  · rw [processRR_eq, lineOf, classify_SRV]
    simp [h]
  · rw [processRR_eq, lineOf, classify_NS]
    simp [h]

/-- Witness of C3, scenario 2 of the specification: the CNAME `alias.example.com` points
to `real.example.com`, which resolves to `5.6.7.8`; the only line is `alias.example.com`. -/
theorem alias_emitted_name_witness :
    (LookupName openNet "real.example.com." "8.8.8.8").values = ["5.6.7.8"] ∧
      resolves openNet "8.8.8.8" "real.example.com." ∧
      processRR openNet "8.8.8.8" (RR.CNAME "alias.example.com." "real.example.com.") =
        [Event.exchange "8.8.8.8:53" "real.example.com." QType.TypeA,
          Event.println "alias.example.com"] :=
  ⟨by decide, by decide,
    (alias_emitted_name openNet "8.8.8.8" "alias.example.com." "real.example.com."
      (by decide)).1⟩

/-- C4, counterexample: the owner name `a\..` (the presentation form of a name whose last
label is `a.`) is `a\.` followed by a dot; it is accepted, and the line printed for it is
`a\`, not `a\.`. -/
theorem trailing_dot_counterexample :
    "a\\.." = "a\\." ++ "." ∧
      (classify openNet "8.8.8.8" (RR.A "a\\.." [1, 2, 3, 4])).1 = some "a\\.." ∧
      linesOf (processRR openNet "8.8.8.8" (RR.A "a\\.." [1, 2, 3, 4])) = ["a\\"] ∧
      linesOf (processRR openNet "8.8.8.8" (RR.A "a\\.." [1, 2, 3, 4])) ≠ ["a\\."] := by
  decide

/-- C4, amended: for every accepted candidate hostname `h` the line printed is
`TrimRight h "."`, that is `h` without any of its trailing dots: `h` is the line followed
by dots only, and the line does not end in a dot.  So if `h = s ++ "."` where `s` does not
end in a dot the line is `s`, and if `h` does not end in a dot the line is `h`. -/
theorem emitted_line_trims_dots (net : Net) (serverAddr : String) (a : RR) (h : String)
    (hc : (classify net serverAddr a).1 = some h) :
    linesOf (processRR net serverAddr a) = [TrimRight h "."] ∧
      (∃ k, h = TrimRight h "." ++ ⟨List.replicate k '.'⟩) ∧
      ¬ endsInDot (TrimRight h ".") ∧
      (∀ s, h = s ++ "." → ¬ endsInDot s → TrimRight h "." = s) ∧
      (¬ endsInDot h → TrimRight h "." = h) := by
  refine ⟨?_, TrimRight_dots h, TrimRight_not_endsInDot h, ?_, TrimRight_of_not_endsInDot h⟩
  · rw [linesOf_processRR, lineOf, hc]
    rfl
  · intro s hs hd
    rw [hs]
    exact TrimRight_append_dot s hd

/-- Witness of C4 (amended): the A record of `host.example.com.`. -/
theorem emitted_line_trims_dots_witness :
    (classify openNet "8.8.8.8" (RR.A "host.example.com." [1, 2, 3, 4])).1 =
        some "host.example.com." ∧
      linesOf (processRR openNet "8.8.8.8" (RR.A "host.example.com." [1, 2, 3, 4])) =
        ["host.example.com"] :=
  ⟨by decide,
    (emitted_line_trims_dots openNet "8.8.8.8" (RR.A "host.example.com." [1, 2, 3, 4])
      "host.example.com." (by decide)).1⟩

/-- C5, the program on scenario 1 of the specification: the connection to `ns1` fails, so
`Transfer.In` returns the nil channel with the error.  The worker logs the error and then
ranges over the nil channel: it blocks for good, `ns2` is never tried, and nothing is
printed, where the specification expects `host.example.com`. -/
theorem scenario1_worker_blocks :
    AXFR scenario1Net "8.8.8.8" ["example.com"] =
        ⟨[Event.exchange "8.8.8.8:53" "example.com." QType.TypeNS,
          Event.transfer "ns1.example.com.:53" "example.com.",
          Event.log "Error querying NS: dial tcp: i/o timeout"], Outcome.blocked⟩ ∧
      (LookupNS scenario1Net "example.com" "8.8.8.8").values =
        ["ns1.example.com.", "ns2.example.com."] ∧
      linesOf (AXFR scenario1Net "8.8.8.8" ["example.com"]).events = [] ∧
      transfersOf (AXFR scenario1Net "8.8.8.8" ["example.com"]).events =
        ["ns1.example.com.:53"] ∧
      linesOf (transferFrom scenario1Net "8.8.8.8" "example.com" "ns2.example.com.").events =
        ["host.example.com"] := by
  decide

/-- C6: when the NS exchange for a domain fails or returns an empty answer section,
`LookupNS` returns an error and an empty server list; for that domain the worker sends the
NS query, logs the error, attempts no zone transfer and prints nothing, and then goes on
with the rest of its work items. -/
theorem discovery_failure_skips_domain (net : Net) (serverAddr domain : String)
    (work : List String)
    (h : (∃ e, net.Exchange (net.Fqdn domain) QType.TypeNS (serverAddr ++ ":53") =
          Except.error e) ∨
      net.Exchange (net.Fqdn domain) QType.TypeNS (serverAddr ++ ":53") = Except.ok ⟨[]⟩) :
    (LookupNS net domain serverAddr).values = [] ∧
      (∃ msg, (LookupNS net domain serverAddr).err = some msg ∧
        processDomain net serverAddr domain =
          ⟨[Event.exchange (serverAddr ++ ":53") (net.Fqdn domain) QType.TypeNS,
            Event.log ("Error lookup up NS record: " ++ msg)], Outcome.finished⟩ ∧
        AXFR net serverAddr (domain :: work) =
          ⟨[Event.exchange (serverAddr ++ ":53") (net.Fqdn domain) QType.TypeNS,
            Event.log ("Error lookup up NS record: " ++ msg)] ++
              (AXFR net serverAddr work).events, (AXFR net serverAddr work).outcome⟩) ∧
      transfersOf (processDomain net serverAddr domain).events = [] ∧
      linesOf (processDomain net serverAddr domain).events = [] := by
  have key : ∃ msg, LookupNS net domain serverAddr =
      ⟨[], some msg, [Event.exchange (serverAddr ++ ":53") (net.Fqdn domain) QType.TypeNS]⟩ := by
    rcases h with ⟨e, he⟩ | hok
    · exact ⟨e, by unfold LookupNS; simp only [he]⟩
    · exact ⟨"no Answer", by unfold LookupNS; simp [hok]⟩
  obtain ⟨msg, hmsg⟩ := key
  have hdom : processDomain net serverAddr domain =
      ⟨[Event.exchange (serverAddr ++ ":53") (net.Fqdn domain) QType.TypeNS,
        Event.log ("Error lookup up NS record: " ++ msg)], Outcome.finished⟩ := by
    unfold processDomain
    simp [hmsg, transferAll, Run.andThen]
  refine ⟨by rw [hmsg], ⟨msg, by rw [hmsg], hdom, ?_⟩, ?_, ?_⟩
  · rw [AXFR, hdom]
    simp [Run.andThen]
  · rw [hdom]
    rfl
  · rw [hdom]
    rfl

/-- Witness of C6, on the sample resolver: `down.test` cannot be queried and
`void.example.com` has an empty answer; the worker goes on to `example.com`. -/
theorem discovery_failure_skips_domain_witness :
    (LookupNS openNet "down.test" "8.8.8.8").values = [] ∧
      (LookupNS openNet "down.test" "8.8.8.8").err = some "read udp: i/o timeout" ∧
      (LookupNS openNet "void.example.com" "8.8.8.8").err = some "no Answer" ∧
      transfersOf (processDomain openNet "8.8.8.8" "down.test").events = [] ∧
      linesOf (processDomain openNet "8.8.8.8" "void.example.com").events = [] ∧
      linesOf (AXFR openNet "8.8.8.8" ["down.test", "example.com"]).events =
        linesOf (AXFR openNet "8.8.8.8" ["example.com"]).events :=
  ⟨(discovery_failure_skips_domain openNet "8.8.8.8" "down.test" ["example.com"]
      (Or.inl ⟨"read udp: i/o timeout", by rfl⟩)).1,
    by decide, by decide,
    (discovery_failure_skips_domain openNet "8.8.8.8" "down.test" ["example.com"]
      (Or.inl ⟨"read udp: i/o timeout", by rfl⟩)).2.2.1,
    (discovery_failure_skips_domain openNet "8.8.8.8" "void.example.com" []
      (Or.inr (by rfl))).2.2.2,
    by decide⟩

/-- C8: in a successful transfer from one server the lines the worker prints are, in
order, the lines of the accepted records among the records of the transfer (its
envelopes concatenated in arrival order): they correspond one to one, in order, to a
subsequence of the records. -/
theorem transfer_preserves_order (net : Net) (serverAddr domain s : String)
    (envs : List Envelope)
    (h : net.In (net.Fqdn domain) (s ++ ":53") = (some envs, none)) :
    linesOf (transferFrom net serverAddr domain s).events =
        (recordsOf envs).filterMap (lineOf net serverAddr) ∧
      ∃ sub, sub.Sublist (recordsOf envs) ∧
        List.Forall₂ (fun r l => lineOf net serverAddr r = some l) sub
          (linesOf (transferFrom net serverAddr domain s).events) := by
  have hl : linesOf (transferFrom net serverAddr domain s).events =
      (recordsOf envs).filterMap (lineOf net serverAddr) := by
    rw [transferFrom_ok net serverAddr domain s envs h]
    show linesOf ([Event.transfer (s ++ ":53") (net.Fqdn domain)] ++
      processEnvelopes net serverAddr envs) = _
    rw [linesOf_append, linesOf_processEnvelopes]
    rfl
  rw [hl]
  exact ⟨rfl, filterMap_sublist_forall₂ _ _⟩

/-- Witness of C8: the sample zone, transferred from `ns1.example.com`. -/
theorem transfer_preserves_order_witness :
    openNet.In (openNet.Fqdn "example.com") ("ns1.example.com." ++ ":53") =
        (some sampleZone, none) ∧
      linesOf (transferFrom openNet "8.8.8.8" "example.com" "ns1.example.com.").events =
        ["ns2.example.com", "host.example.com", "alias.example.com", "host.example.com",
          "host.example.com"] ∧
      ∃ sub, sub.Sublist (recordsOf sampleZone) ∧
        List.Forall₂ (fun r l => lineOf openNet "8.8.8.8" r = some l) sub
          (linesOf (transferFrom openNet "8.8.8.8" "example.com" "ns1.example.com.").events) :=
  ⟨by rfl, by decide,
    (transfer_preserves_order openNet "8.8.8.8" "example.com" "ns1.example.com." sampleZone
      (by rfl)).2⟩

/-- C9, counterexample: with the configured nameserver `8.8.8.8`, the zone transfers of
`example.com` are addressed to its name servers `ns1.example.com.:53` and
`ns2.example.com.:53`, not to `8.8.8.8:53`. -/
theorem transfer_address_counterexample :
    transfersOf (processDomain openNet "8.8.8.8" "example.com").events =
        ["ns1.example.com.:53", "ns2.example.com.:53"] ∧
      Event.transfer "ns1.example.com.:53" "example.com." ∈
        (processDomain openNet "8.8.8.8" "example.com").events ∧
      "ns1.example.com.:53" ≠ "8.8.8.8" ++ ":53" := by
  decide

/-- C9, amended: of the requests the worker makes for a domain, every resolver query (the
NS lookup and each secondary validation query) is addressed to the configured nameserver
on port 53, and every zone-transfer attempt is addressed, on port 53, to one of the name
servers `LookupNS` returned for the domain. -/
theorem requests_addressed (net : Net) (serverAddr domain : String) :
    (∀ addr qname qtype,
        Event.exchange addr qname qtype ∈ (processDomain net serverAddr domain).events →
        addr = serverAddr ++ ":53") ∧
      (∀ addr zone, Event.transfer addr zone ∈ (processDomain net serverAddr domain).events →
        ∃ s ∈ (LookupNS net domain serverAddr).values, addr = s ++ ":53") :=
  ⟨fun _ _ _ h => wellAddressed_processDomain net serverAddr domain _ h,
    fun _ _ h => wellAddressed_processDomain net serverAddr domain _ h⟩

/-- Witness of C9 (amended): the requests made for `example.com` on the sample resolver. -/
theorem requests_addressed_witness :
    exchangesOf (processDomain openNet "8.8.8.8" "example.com").events =
        List.replicate 9 "8.8.8.8:53" ∧
      "8.8.8.8:53" = "8.8.8.8" ++ ":53" ∧
      ∃ s ∈ (LookupNS openNet "example.com" "8.8.8.8").values,
        "ns2.example.com.:53" = s ++ ":53" :=
  ⟨by decide,
    (requests_addressed openNet "8.8.8.8" "example.com").1 "8.8.8.8:53" "example.com."
      QType.TypeNS (by decide),
    (requests_addressed openNet "8.8.8.8" "example.com").2 "ns2.example.com.:53"
      "example.com." (by decide)⟩

end Hakaxfr
